import Mathlib

/-!
Shallow embedding of the recurring-transaction generation engine of the
monthly-finance-tracker repository (src/components/FinanceTracker.tsx:
`getNextOccurrence`, `generateDueTransactions`, and the
`processRecurringTransactions` pass), together with the calendar
arithmetic it relies on (date-fns `addDays`, `addWeeks`, `addMonths`,
`addYears`, `isAfter`, `isBefore`, `startOfDay`).

A JavaScript `Date` is modelled as a civil date (year, month, day) plus
milliseconds since local midnight.  `isAfter`/`isBefore` compare the
total order of instants; on valid civil dates the lexicographic order on
(year, month, day, ms) coincides with timestamp order, and the numeric
`key` below is a strictly monotone encoding of that lexicographic order
(month weight 32 exceeds any day 1..31, year weight 384 = 32*12 exceeds
any month/day combination, and ms < 86400000).
-/

namespace FinanceTracker

/-- Model of a JavaScript `Date`: civil year/month/day plus milliseconds
since local midnight.  `month` ranges over 1..12 and `day` over
1..daysInMonth for valid dates. -/
structure Date where
  year : Nat
  month : Nat
  day : Nat
  ms : Nat
deriving DecidableEq, Repr

/-- Gregorian leap-year rule (as used by JavaScript dates). -/
def isLeapYear (y : Nat) : Bool :=
  y % 4 == 0 && (y % 100 != 0 || y % 400 == 0)

/-- Number of days in a civil month. -/
def daysInMonth (y m : Nat) : Nat :=
  if m == 2 then (if isLeapYear y then 29 else 28)
  else if m == 4 || m == 6 || m == 9 || m == 11 then 30
  else 31

/-- Day-granularity rank of a date: strictly monotone in the
lexicographic (year, month, day) order of valid dates, because the month
weight 32 exceeds every day value (at most 31) and the year weight
384 = 32 * 12 exceeds every month/day combination. -/
def Date.rank (d : Date) : Nat :=
  384 * d.year + 32 * (d.month - 1) + d.day

/-- Instant-granularity rank: refines `Date.rank` with the millisecond
offset inside the day (always below 86400000 on valid dates).  On valid
dates, comparing keys is comparing timestamps. -/
def Date.key (d : Date) : Nat :=
  86400000 * d.rank + d.ms

/-- Embedding of date-fns `isAfter`: the first instant is strictly later. -/
def isAfter (a b : Date) : Bool :=
  decide (b.key < a.key)

/-- Embedding of date-fns `isBefore`: the first instant is strictly earlier. -/
def isBefore (a b : Date) : Bool :=
  decide (a.key < b.key)

/-- Embedding of date-fns `startOfDay`: truncate to local midnight. -/
def startOfDay (d : Date) : Date :=
  { d with ms := 0 }

/-- A well-formed civil date: month in 1..12, day in range for the
month, millisecond offset inside the day. -/
def ValidDate (d : Date) : Prop :=
  1 ≤ d.month ∧ d.month ≤ 12 ∧ 1 ≤ d.day ∧ d.day ≤ daysInMonth d.year d.month ∧
    d.ms < 86400000

instance (d : Date) : Decidable (ValidDate d) := by
  unfold ValidDate; infer_instance

/-- Advance a civil date by one day, rolling over month and year ends. -/
def addOneDay (d : Date) : Date :=
  if d.day < daysInMonth d.year d.month then { d with day := d.day + 1 }
  else if d.month < 12 then { d with month := d.month + 1, day := 1 }
  else { d with year := d.year + 1, month := 1, day := 1 }

/-- Embedding of date-fns `addDays` (for a non-negative count, the only
use in the source). -/
def addDays (d : Date) : Nat → Date
  | 0 => d
  | n + 1 => addOneDay (addDays d n)

/-- Embedding of date-fns `addWeeks`. -/
def addWeeks (d : Date) (n : Nat) : Date :=
  addDays d (7 * n)

/-- Embedding of date-fns `addMonths`: advance the month index and clamp
the day-of-month to the target month's length (Jan 31 + 1 month is the
last day of February). -/
def addMonths (d : Date) (n : Nat) : Date :=
  let idx := 12 * d.year + (d.month - 1) + n
  let y := idx / 12
  let m := idx % 12 + 1
  { d with year := y, month := m, day := min d.day (daysInMonth y m) }

/-- Embedding of date-fns `addYears`: advance the year and clamp the day
(Feb 29 + 1 year is Feb 28). -/
def addYears (d : Date) (n : Nat) : Date :=
  { d with year := d.year + n, day := min d.day (daysInMonth (d.year + n) d.month) }
/-- The `RecurrenceFrequency` enum of src/types/finance
('daily' | 'weekly' | 'monthly' | 'yearly'). -/
inductive RecurrenceFrequency where
  | daily
  | weekly
  | monthly
  | yearly
deriving DecidableEq, Repr

/-- Model of the `RecurringTransaction` record (src/types/finance, as
used by FinanceTracker.tsx).  Date-valued string fields are modelled by
the `Date` they parse to; `endDate` and `lastGenerated` are optional. -/
structure RecurringTransaction where
  id : Nat
  type : String
  amount : Int
  category : String
  description : String
  frequency : RecurrenceFrequency
  startDate : Date
  endDate : Option Date
  lastGenerated : Option Date
  isActive : Bool
deriving DecidableEq, Repr

/-- Model of `Omit<Transaction, 'id'>`, the element type of the list
returned by `generateDueTransactions`.  The `date` field models the ISO
string `nextDue.toISOString()` by the `Date` it denotes. -/
structure GeneratedTransaction where
  type : String
  amount : Int
  category : String
  description : String
  date : Date
  recurringId : Nat
deriving DecidableEq, Repr

/-- Embedding of `getNextOccurrence` (FinanceTracker.tsx lines 598-613):
truncate the anchor to the start of its day and add one frequency unit.
The source's `default` branch is unreachable because the frequency enum
is exhaustive. -/
def getNextOccurrence (recurring : RecurringTransaction) (fromDate : Date) : Date :=
  match recurring.frequency with
  | .daily => addDays (startOfDay fromDate) 1
  | .weekly => addWeeks (startOfDay fromDate) 1
  | .monthly => addMonths (startOfDay fromDate) 1
  | .yearly => addYears (startOfDay fromDate) 1

/-- Embedding of the JavaScript truthiness test
`recurring.endDate && isAfter(d, startOfDay(new Date(recurring.endDate)))`
used both in the pre-check (with `d = now`) and inside the loop (with
`d = nextDue`). -/
def endStop (recurring : RecurringTransaction) (d : Date) : Bool :=
  match recurring.endDate with
  | some e => isAfter d (startOfDay e)
  | none => false

/-- The transaction pushed by the loop body (FinanceTracker.tsx lines
660-668). -/
def mkAutoTransaction (recurring : RecurringTransaction) (nextDue : Date) :
    GeneratedTransaction :=
  { type := recurring.type
    amount := recurring.amount
    category := recurring.category
    description := recurring.description ++ " (Auto)"
    date := nextDue
    recurringId := recurring.id }

/-- Embedding of the `while (true)` loop of `generateDueTransactions`
(FinanceTracker.tsx lines 641-669).  The loop variable `nextDue` is the
`anchor` argument; each iteration advances it by `getNextOccurrence`,
breaks once the candidate is after `now`, skips candidates before
`startDate`, breaks once the candidate is after `endDate`, and otherwise
pushes a generated transaction.  The source loop is unbounded; here it
carries explicit fuel and answers `none` when the fuel runs out, so that
termination on valid input is a theorem (`genLoop_isSome`) rather than
an assumption. -/
def genLoop (recurring : RecurringTransaction) (now : Date) :
    Date → Nat → Option (List GeneratedTransaction)
  | _, 0 => none
  | anchor, fuel + 1 =>
    if isAfter (getNextOccurrence recurring anchor) now then
      some []
    else if isBefore (getNextOccurrence recurring anchor)
        (startOfDay recurring.startDate) then
      genLoop recurring now (getNextOccurrence recurring anchor) fuel
    else if endStop recurring (getNextOccurrence recurring anchor) then
      some []
    else
      (genLoop recurring now (getNextOccurrence recurring anchor) fuel).map
        (fun rest => mkAutoTransaction recurring (getNextOccurrence recurring anchor) :: rest)

/-- The initial loop anchor (FinanceTracker.tsx lines 633-636):
`lastGenerated` when present, else `startDate`, day-truncated. -/
def checkFromDate (recurring : RecurringTransaction) : Date :=
  startOfDay (match recurring.lastGenerated with
    | some d => d
    | none => recurring.startDate)

/-- Fuel passed to `genLoop`: one more than the number of day ranks
between the anchor and `now`.  Each loop iteration advances the anchor
by at least one day rank and the loop only continues while the candidate
is not after `now`, so this fuel is never exhausted on valid input
(`genLoop_isSome`); it dominates the number of frequency periods between
the anchor and `now`. -/
def genFuel (checkFrom now : Date) : Nat :=
  now.rank - checkFrom.rank + 1

/-- Embedding of `generateDueTransactions` (FinanceTracker.tsx lines
616-672): return nothing for an inactive schedule, nothing once `now` is
after `endDate`, and otherwise run the generation loop from the
checkpoint. -/
def generateDueTransactions (recurring : RecurringTransaction)
    (currentDate : Date) : List GeneratedTransaction :=
  if !recurring.isActive then []
  else if endStop recurring (startOfDay currentDate) then []
  else
    (genLoop recurring (startOfDay currentDate) (checkFromDate recurring)
      (genFuel (checkFromDate recurring) (startOfDay currentDate))).getD []

/-- Embedding of the effect of one `processRecurringTransactions` pass
(FinanceTracker.tsx lines 246-310) on the stored schedules: for each
active schedule whose generated list is non-empty, the pass issues
`PATCH /api/recurring` with body
`lastGenerated: new Date().toISOString()`, i.e. it stores the processing
time `now` (not the date of the last emitted occurrence); schedules with
an empty generated list are left untouched. -/
def processRecurringPass (schedules : List RecurringTransaction) (now : Date) :
    List RecurringTransaction :=
  schedules.map fun r =>
    if r.isActive && !(generateDueTransactions r now).isEmpty then
      { r with lastGenerated := some now }
    else r

/-- Well-formed schedule dates: the start date and the initial loop
anchor derived from it and from `lastGenerated` are valid civil dates. -/
def ValidSchedule (r : RecurringTransaction) : Prop :=
  ValidDate r.startDate ∧ ValidDate (checkFromDate r)

instance (r : RecurringTransaction) : Decidable (ValidSchedule r) := by
  unfold ValidSchedule; infer_instance
/-- Everything the loop body records on each pushed transaction
(FinanceTracker.tsx lines 660-668), together with the branch conditions
that had to be false for the push to happen. -/
def EmittedProps (r : RecurringTransaction) (now : Date) (t : GeneratedTransaction) : Prop :=
  t.type = r.type ∧ t.amount = r.amount ∧ t.category = r.category ∧
    t.recurringId = r.id ∧ t.description = r.description ++ " (Auto)" ∧
    t.date.ms = 0 ∧ isAfter t.date now = false ∧ endStop r t.date = false ∧
    isBefore t.date (startOfDay r.startDate) = false

/-- 2024-01-15, the start date of the spec's concrete scenarios. -/
def jan15 : Date := ⟨2024, 1, 15, 0⟩

/-- 2024-02-14. -/
def feb14 : Date := ⟨2024, 2, 14, 0⟩

/-- 2024-02-15, the first occurrence of the concrete scenarios. -/
def feb15 : Date := ⟨2024, 2, 15, 0⟩

/-- 2024-03-01, the end date of concrete scenario B. -/
def mar01 : Date := ⟨2024, 3, 1, 0⟩

/-- 2024-03-15, the second occurrence of the concrete scenarios. -/
def mar15 : Date := ⟨2024, 3, 15, 0⟩

/-- 2024-04-10, the reference time of the concrete scenarios. -/
def apr10 : Date := ⟨2024, 4, 10, 0⟩

/-- The schedule of concrete scenario A: monthly from 2024-01-15, no end
date, never generated, active. -/
def scheduleA : RecurringTransaction :=
  { id := 1
    type := "expense"
    amount := 1200
    category := "Housing"
    description := "Rent"
    frequency := RecurrenceFrequency.monthly
    startDate := jan15
    endDate := none
    lastGenerated := none
    isActive := true }

/-- The schedule of concrete scenario B: scenario A plus
`endDate = 2024-03-01`. -/
def scheduleB : RecurringTransaction :=
  { scheduleA with endDate := some mar01 }

/-- Scenario A's schedule switched off. -/
def scheduleInactive : RecurringTransaction :=
  { scheduleA with isActive := false }

/-- Scenario A's schedule with `endDate = 2024-02-15`, exactly on the
first candidate occurrence. -/
def scheduleEndFeb15 : RecurringTransaction :=
  { scheduleA with endDate := some feb15 }

/-- Scenario A's schedule with `endDate = 2024-02-14`, one day before
the first candidate occurrence. -/
def scheduleEndFeb14 : RecurringTransaction :=
  { scheduleA with endDate := some feb14 }

/-- The transaction the engine emits for scenario A's 2024-03-15
occurrence (the last one before `now = 2024-04-10`). -/
def tA : GeneratedTransaction :=
  { type := "expense"
    amount := 1200
    category := "Housing"
    description := "Rent (Auto)"
    date := mar15
    recurringId := 1 }

/-- The transaction the engine emits on the `endDate = 2024-02-15`
boundary. -/
def tBoundary : GeneratedTransaction :=
  { type := "expense"
    amount := 1200
    category := "Housing"
    description := "Rent (Auto)"
    date := feb15
    recurringId := 1 }

theorem daysInMonth_bounds (y m : Nat) :
    28 ≤ daysInMonth y m ∧ daysInMonth y m ≤ 31 := by
  unfold daysInMonth
  split
  · split <;> omega
  · split <;> omega

theorem rank_startOfDay (d : Date) : (startOfDay d).rank = d.rank := rfl

theorem ms_startOfDay (d : Date) : (startOfDay d).ms = 0 := rfl

theorem validDate_startOfDay {d : Date} (h : ValidDate d) :
    ValidDate (startOfDay d) := by
  obtain ⟨h1, h2, h3, h4, _⟩ := h
  exact ⟨h1, h2, h3, h4, by rw [ms_startOfDay]; omega⟩

theorem startOfDay_eq_self {d : Date} (h : d.ms = 0) : startOfDay d = d := by
  cases d
  simp_all [startOfDay]

theorem isAfter_iff (a b : Date) : isAfter a b = true ↔ b.key < a.key := by
  simp [isAfter]

theorem isBefore_iff (a b : Date) : isBefore a b = true ↔ a.key < b.key := by
  simp [isBefore]

theorem key_lt_of_ms_zero {a b : Date} (ha : a.ms = 0) (hb : b.ms = 0) :
    a.key < b.key ↔ a.rank < b.rank := by
  unfold Date.key
  rw [ha, hb]
  omega

theorem addOneDay_valid {d : Date} (h : ValidDate d) : ValidDate (addOneDay d) := by
  have hb := daysInMonth_bounds d.year d.month
  have hb2 := daysInMonth_bounds d.year (d.month + 1)
  have hb3 := daysInMonth_bounds (d.year + 1) 1
  unfold ValidDate at *
  unfold addOneDay
  split
  · dsimp only
    omega
  · split <;> (dsimp only; omega)

theorem addOneDay_rank {d : Date} (h : ValidDate d) :
    d.rank < (addOneDay d).rank := by
  have hb := daysInMonth_bounds d.year d.month
  unfold ValidDate at h
  unfold addOneDay Date.rank
  split
  · dsimp only
    omega
  · split <;> (dsimp only; omega)

theorem addOneDay_ms (d : Date) : (addOneDay d).ms = d.ms := by
  unfold addOneDay
  split
  · rfl
  · split <;> rfl

theorem addDays_valid {d : Date} (h : ValidDate d) (n : Nat) :
    ValidDate (addDays d n) := by
  induction n with
  | zero => exact h
  | succ k ih => exact addOneDay_valid ih

theorem addDays_rank {d : Date} (h : ValidDate d) {n : Nat} (hn : 1 ≤ n) :
    d.rank < (addDays d n).rank := by
  induction n with
  | zero => omega
  | succ k ih =>
    rcases Nat.eq_zero_or_pos k with hk | hk
    · subst hk
      exact addOneDay_rank h
    · have := addOneDay_rank (addDays_valid h k)
      have := ih hk
      simp only [addDays]
      omega

theorem addDays_ms (d : Date) (n : Nat) : (addDays d n).ms = d.ms := by
  induction n with
  | zero => rfl
  | succ k ih => simp only [addDays, addOneDay_ms]; exact ih

theorem addMonths_one_valid {d : Date} (h : ValidDate d) :
    ValidDate (addMonths d 1) := by
  have hb := daysInMonth_bounds d.year d.month
  have hb2 := daysInMonth_bounds ((12 * d.year + (d.month - 1) + 1) / 12)
    ((12 * d.year + (d.month - 1) + 1) % 12 + 1)
  unfold ValidDate at *
  unfold addMonths
  dsimp only
  omega

theorem addMonths_one_rank {d : Date} (h : ValidDate d) :
    d.rank < (addMonths d 1).rank := by
  have hb := daysInMonth_bounds d.year d.month
  have hb2 := daysInMonth_bounds ((12 * d.year + (d.month - 1) + 1) / 12)
    ((12 * d.year + (d.month - 1) + 1) % 12 + 1)
  unfold ValidDate at h
  unfold addMonths Date.rank
  dsimp only
  omega

theorem addMonths_ms (d : Date) (n : Nat) : (addMonths d n).ms = d.ms := rfl

theorem addYears_one_valid {d : Date} (h : ValidDate d) :
    ValidDate (addYears d 1) := by
  have hb := daysInMonth_bounds d.year d.month
  have hb2 := daysInMonth_bounds (d.year + 1) d.month
  unfold ValidDate at *
  unfold addYears
  dsimp only
  omega

theorem addYears_one_rank {d : Date} (h : ValidDate d) :
    d.rank < (addYears d 1).rank := by
  have hb := daysInMonth_bounds d.year d.month
  have hb2 := daysInMonth_bounds (d.year + 1) d.month
  unfold ValidDate at h
  unfold addYears Date.rank
  dsimp only
  omega

theorem addYears_ms (d : Date) (n : Nat) : (addYears d n).ms = d.ms := rfl

theorem getNextOccurrence_valid {d : Date} (r : RecurringTransaction)
    (h : ValidDate d) : ValidDate (getNextOccurrence r d) := by
  have hs := validDate_startOfDay h
  unfold getNextOccurrence
  cases r.frequency
  · exact addDays_valid hs 1
  · exact addDays_valid hs 7
  · exact addMonths_one_valid hs
  · exact addYears_one_valid hs

theorem getNextOccurrence_ms (r : RecurringTransaction) (d : Date) :
    (getNextOccurrence r d).ms = 0 := by
  unfold getNextOccurrence
  cases r.frequency
  · rw [addDays_ms, ms_startOfDay]
  · show (addDays (startOfDay d) (7 * 1)).ms = 0
    rw [addDays_ms, ms_startOfDay]
  · rw [addMonths_ms, ms_startOfDay]
  · rw [addYears_ms, ms_startOfDay]

theorem getNextOccurrence_rank {d : Date} (r : RecurringTransaction)
    (h : ValidDate d) : d.rank < (getNextOccurrence r d).rank := by
  have hs := validDate_startOfDay h
  have hr : (startOfDay d).rank = d.rank := rank_startOfDay d
  obtain ⟨i, t, a, c, de, fr, sd, ed, lg, ia⟩ := r
  cases fr
  · show d.rank < (addDays (startOfDay d) 1).rank
    have := addDays_rank hs (by omega : 1 ≤ 1)
    omega
  · show d.rank < (addDays (startOfDay d) (7 * 1)).rank
    have := addDays_rank hs (by omega : 1 ≤ 7 * 1)
    omega
  · show d.rank < (addMonths (startOfDay d) 1).rank
    have := addMonths_one_rank hs
    omega
  · show d.rank < (addYears (startOfDay d) 1).rank
    have := addYears_one_rank hs
    omega

theorem getNextOccurrence_key {d : Date} (r : RecurringTransaction)
    (h : ValidDate d) (hms : d.ms = 0) : d.key < (getNextOccurrence r d).key := by
  rw [key_lt_of_ms_zero hms (getNextOccurrence_ms r d)]
  exact getNextOccurrence_rank r h

theorem checkFromDate_ms (r : RecurringTransaction) : (checkFromDate r).ms = 0 := rfl

/-- The generation loop never exhausts its fuel when the fuel exceeds
the day-rank distance from the anchor to `now`: every iteration strictly
increases the anchor's rank, and the loop only recurses while the
candidate's rank is at most `now`'s. -/
theorem genLoop_isSome (r : RecurringTransaction) (now : Date) (hnow : now.ms = 0) :
    ∀ fuel anchor, ValidDate anchor → anchor.ms = 0 →
      now.rank ≤ fuel + anchor.rank → (genLoop r now anchor (fuel + 1)).isSome = true := by
  intro fuel
  induction fuel with
  | zero =>
    intro anchor hv hms hle
    by_cases h1 : isAfter (getNextOccurrence r anchor) now = true
    · simp [genLoop, h1]
    · exfalso
      have hr := getNextOccurrence_rank r hv
      have hk : ¬ now.key < (getNextOccurrence r anchor).key := by
        simpa [isAfter] using h1
      rw [key_lt_of_ms_zero hnow (getNextOccurrence_ms r anchor)] at hk
      omega
  | succ f ih =>
    intro anchor hv hms hle
    by_cases h1 : isAfter (getNextOccurrence r anchor) now = true
    · simp [genLoop, h1]
    · have hk : ¬ now.key < (getNextOccurrence r anchor).key := by
        simpa [isAfter] using h1
      rw [key_lt_of_ms_zero hnow (getNextOccurrence_ms r anchor)] at hk
      have hr := getNextOccurrence_rank r hv
      have hrec := ih (getNextOccurrence r anchor) (getNextOccurrence_valid r hv)
        (getNextOccurrence_ms r anchor) (by omega)
      by_cases h2 : isBefore (getNextOccurrence r anchor) (startOfDay r.startDate) = true
      · simpa [genLoop, h1, h2] using hrec
      · by_cases h3 : endStop r (getNextOccurrence r anchor) = true
        · simp [genLoop, h1, h2, h3]
        · simpa [genLoop, h1, h2, h3] using hrec

theorem genLoop_mem (r : RecurringTransaction) (now : Date) :
    ∀ fuel anchor l, genLoop r now anchor fuel = some l →
      ∀ t ∈ l, EmittedProps r now t := by
  intro fuel
  induction fuel with
  | zero => intro anchor l h; simp [genLoop] at h
  | succ f ih =>
    intro anchor l h t ht
    by_cases h1 : isAfter (getNextOccurrence r anchor) now = true
    · simp [genLoop, h1] at h
      subst h
      simp at ht
    · by_cases h2 : isBefore (getNextOccurrence r anchor) (startOfDay r.startDate) = true
      · rw [genLoop, if_neg (by simp [h1]), if_pos h2] at h
        exact ih _ _ h t ht
      · by_cases h3 : endStop r (getNextOccurrence r anchor) = true
        · simp [genLoop, h1, h2, h3] at h
          subst h
          simp at ht
        · rw [genLoop, if_neg (by simp [h1]), if_neg (by simp [h2]),
            if_neg (by simp [h3])] at h
          rw [Option.map_eq_some'] at h
          obtain ⟨l', hl', hcons⟩ := h
          subst hcons
          rcases List.mem_cons.mp ht with h | h
          · subst h
            refine ⟨rfl, rfl, rfl, rfl, rfl, getNextOccurrence_ms r anchor, ?_, ?_, ?_⟩
            · simpa using h1
            · simpa using h3
            · simpa using h2
          · exact ih _ _ hl' t h

theorem genLoop_sorted (r : RecurringTransaction) (now : Date) :
    ∀ fuel anchor l, ValidDate anchor → anchor.ms = 0 →
      genLoop r now anchor fuel = some l →
      (∀ t ∈ l, ValidDate t.date ∧ t.date.ms = 0 ∧ anchor.key < t.date.key) ∧
        List.Pairwise (fun a b => isBefore a.date b.date = true) l := by
  intro fuel
  induction fuel with
  | zero => intro anchor l _ _ h; simp [genLoop] at h
  | succ f ih =>
    intro anchor l hv hms h
    have hv' := getNextOccurrence_valid r hv
    have hms' := getNextOccurrence_ms r anchor
    have hkey := getNextOccurrence_key r hv hms
    by_cases h1 : isAfter (getNextOccurrence r anchor) now = true
    · simp [genLoop, h1] at h
      subst h
      simp
    · by_cases h2 : isBefore (getNextOccurrence r anchor) (startOfDay r.startDate) = true
      · rw [genLoop, if_neg (by simp [h1]), if_pos h2] at h
        obtain ⟨hmem, hpair⟩ := ih _ _ hv' hms' h
        exact ⟨fun t ht => ⟨(hmem t ht).1, (hmem t ht).2.1, by have := (hmem t ht).2.2; omega⟩, hpair⟩
      · by_cases h3 : endStop r (getNextOccurrence r anchor) = true
        · simp [genLoop, h1, h2, h3] at h
          subst h
          simp
        · rw [genLoop, if_neg (by simp [h1]), if_neg (by simp [h2]),
            if_neg (by simp [h3])] at h
          rw [Option.map_eq_some'] at h
          obtain ⟨l', hl', hcons⟩ := h
          subst hcons
          obtain ⟨hmem, hpair⟩ := ih _ _ hv' hms' hl'
          constructor
          · intro t ht
            rcases List.mem_cons.mp ht with h | h
            · subst h
              exact ⟨hv', hms', hkey⟩
            · obtain ⟨ha, hb, hc⟩ := hmem t h
              exact ⟨ha, hb, by omega⟩
          · rw [List.pairwise_cons]
            refine ⟨fun t ht => ?_, hpair⟩
            have := (hmem t ht).2.2
            rw [isBefore_iff]
            simpa [mkAutoTransaction] using this

/-- If the loop, started at an anchor that is not before the start date,
finishes with no emission at all, then the very first candidate is
blocked: it is after `now`, or after the end date. -/
theorem genLoop_nil_blocked (r : RecurringTransaction) (now : Date)
    (fuel : Nat) (anchor : Date) (hv : ValidDate anchor) (hms : anchor.ms = 0)
    (hstart : isBefore anchor (startOfDay r.startDate) = false)
    (hnil : genLoop r now anchor fuel = some []) :
    isAfter (getNextOccurrence r anchor) now = true ∨
      endStop r (getNextOccurrence r anchor) = true := by
  match fuel with
  | 0 => simp [genLoop] at hnil
  | f + 1 =>
    by_cases h1 : isAfter (getNextOccurrence r anchor) now = true
    · exact Or.inl h1
    · by_cases h2 : isBefore (getNextOccurrence r anchor) (startOfDay r.startDate) = true
      · exfalso
        have hkey := getNextOccurrence_key r hv hms
        have hs : ¬ anchor.key < (startOfDay r.startDate).key := by
          simpa [isBefore] using hstart
        have h2' : (getNextOccurrence r anchor).key < (startOfDay r.startDate).key := by
          simpa [isBefore] using h2
        omega
      · by_cases h3 : endStop r (getNextOccurrence r anchor) = true
        · exact Or.inr h3
        · exfalso
          rw [genLoop, if_neg (by simp [h1]), if_neg (by simp [h2]),
            if_neg (by simp [h3])] at hnil
          rw [Option.map_eq_some'] at hnil
          obtain ⟨l', _, hcons⟩ := hnil
          exact List.cons_ne_nil _ _ hcons

/-- The candidate computed from the date of the last emitted transaction
is blocked: it is after `now`, or after the end date.  This is the heart
of checkpoint safety: re-running the loop from the last emitted date
immediately hits a terminal branch. -/
theorem genLoop_getLast_blocked (r : RecurringTransaction) (now : Date) :
    ∀ fuel anchor l t, ValidDate anchor → anchor.ms = 0 →
      genLoop r now anchor fuel = some l → l.getLast? = some t →
      ValidDate t.date ∧ t.date.ms = 0 ∧
        (isAfter (getNextOccurrence r t.date) now = true ∨
          endStop r (getNextOccurrence r t.date) = true) := by
  intro fuel
  induction fuel with
  | zero => intro anchor l t _ _ h; simp [genLoop] at h
  | succ f ih =>
    intro anchor l t hv hms h hlast
    have hv' := getNextOccurrence_valid r hv
    have hms' := getNextOccurrence_ms r anchor
    by_cases h1 : isAfter (getNextOccurrence r anchor) now = true
    · simp [genLoop, h1] at h
      subst h
      simp at hlast
    · by_cases h2 : isBefore (getNextOccurrence r anchor) (startOfDay r.startDate) = true
      · rw [genLoop, if_neg (by simp [h1]), if_pos h2] at h
        exact ih _ _ _ hv' hms' h hlast
      · by_cases h3 : endStop r (getNextOccurrence r anchor) = true
        · simp [genLoop, h1, h2, h3] at h
          subst h
          simp at hlast
        · rw [genLoop, if_neg (by simp [h1]), if_neg (by simp [h2]),
            if_neg (by simp [h3])] at h
          rw [Option.map_eq_some'] at h
          obtain ⟨l', hl', hcons⟩ := h
          subst hcons
          match l', hl' with
          | [], hl' =>
            rw [List.getLast?_singleton] at hlast
            have ht : t = mkAutoTransaction r (getNextOccurrence r anchor) :=
              (Option.some.injEq _ _).mp hlast.symm ▸ rfl
            have hblocked := genLoop_nil_blocked r now f (getNextOccurrence r anchor)
              hv' hms' (by simpa using h2) hl'
            subst ht
            exact ⟨hv', hms', hblocked⟩
          | t' :: l'', hl' =>
            rw [List.getLast?_cons_cons] at hlast
            exact ih _ _ _ hv' hms' hl' hlast

theorem endStop_some (r : RecurringTransaction) (e : Date)
    (he : r.endDate = some e) (d : Date) :
    endStop r d = isAfter d (startOfDay e) := by
  unfold endStop
  rw [he]

theorem endStop_none (r : RecurringTransaction)
    (he : r.endDate = none) (d : Date) : endStop r d = false := by
  unfold endStop
  rw [he]

/-- Every member of the list returned by `generateDueTransactions`
satisfies all the properties recorded by the loop body. -/
theorem mem_generate_props (r : RecurringTransaction) (currentDate : Date)
    (t : GeneratedTransaction) (ht : t ∈ generateDueTransactions r currentDate) :
    EmittedProps r (startOfDay currentDate) t := by
  by_cases hA : r.isActive = true
  · by_cases hE : endStop r (startOfDay currentDate) = true
    · simp [generateDueTransactions, hA, hE] at ht
    · rw [Bool.not_eq_true] at hE
      rw [generateDueTransactions, if_neg (by simp [hA]), if_neg (by simp [hE])] at ht
      cases hG : genLoop r (startOfDay currentDate) (checkFromDate r)
          (genFuel (checkFromDate r) (startOfDay currentDate)) with
      | none => rw [hG] at ht; simp at ht
      | some l =>
        rw [hG] at ht
        exact genLoop_mem r (startOfDay currentDate) _ _ l hG t (by simpa using ht)
  · rw [Bool.not_eq_true] at hA
    simp [generateDueTransactions, hA] at ht

/-- C1, counterexample: for scenario B (monthly, startDate 2024-01-15,
lastGenerated null, endDate 2024-03-01, active) with now = 2024-04-10,
the generator does NOT emit exactly one occurrence dated 2024-02-15. -/
theorem scenarioB_not_single_occurrence :
    ¬ (generateDueTransactions scheduleB apr10).map (fun t => t.date) = [feb15] := by
  decide

/-- C1, amended: for scenario B with now = 2024-04-10 the generator
emits no occurrence at all, because now is strictly after the end date
2024-03-01 and the lapsed-schedule pre-check suppresses everything. -/
theorem scenarioB_emits_nothing :
    generateDueTransactions scheduleB apr10 = [] := by
  decide

/-- C4: when `endDate` is set and day-truncated `now` is strictly after
it, the generator returns the empty list even if in-window occurrences
were never generated, and an inactive schedule yields the empty list
regardless of every other field. -/
theorem inactive_or_lapsed_empty (r : RecurringTransaction) (currentDate : Date) :
    (r.isActive = false → generateDueTransactions r currentDate = []) ∧
      (∀ e, r.endDate = some e →
        isAfter (startOfDay currentDate) (startOfDay e) = true →
        generateDueTransactions r currentDate = []) := by
  constructor
  · intro h
    simp [generateDueTransactions, h]
  · intro e he hafter
    have hE : endStop r (startOfDay currentDate) = true := by
      rw [endStop_some r e he]
      exact hafter
    by_cases hA : r.isActive = true
    · simp [generateDueTransactions, hA, hE]
    · rw [Bool.not_eq_true] at hA
      simp [generateDueTransactions, hA]

theorem inactive_or_lapsed_empty_witness :
    generateDueTransactions scheduleInactive apr10 = [] ∧
      generateDueTransactions scheduleB apr10 = [] :=
  ⟨(inactive_or_lapsed_empty scheduleInactive apr10).1 rfl,
   (inactive_or_lapsed_empty scheduleB apr10).2 mar01 rfl (by decide)⟩

/-- C5: for scenario A (monthly, startDate 2024-01-15, lastGenerated
null, no endDate, active) with now = 2024-04-10 the generator emits
exactly the two occurrences 2024-02-15 and 2024-03-15 in that order;
2024-04-15 is after now and excluded, and no occurrence falls on the
start date itself. -/
theorem scenarioA_two_occurrences :
    (generateDueTransactions scheduleA apr10).map (fun t => t.date) = [feb15, mar15] ∧
      (generateDueTransactions scheduleA apr10).length = 2 ∧
      jan15 ∉ (generateDueTransactions scheduleA apr10).map (fun t => t.date) := by
  decide

/-- C2: if a first call to the generator emits a non-empty list whose
last transaction is `t`, then a second call on the same schedule with
`lastGenerated` advanced to `t.date` and the same current date returns
the empty list: no occurrence is ever re-emitted after the checkpoint
advances. -/
theorem checkpoint_advance_no_reemission
    (r : RecurringTransaction) (currentDate : Date) (t : GeneratedTransaction)
    (hv : ValidSchedule r)
    (hlast : (generateDueTransactions r currentDate).getLast? = some t) :
    generateDueTransactions { r with lastGenerated := some t.date } currentDate = [] := by
  by_cases hA : r.isActive = true
  swap
  · rw [Bool.not_eq_true] at hA
    simp [generateDueTransactions, hA] at hlast
  by_cases hEtop : endStop r (startOfDay currentDate) = true
  · simp [generateDueTransactions, hA, hEtop] at hlast
  rw [Bool.not_eq_true] at hEtop
  rw [generateDueTransactions, if_neg (by simp [hA]), if_neg (by simp [hEtop])] at hlast
  cases hG : genLoop r (startOfDay currentDate) (checkFromDate r)
      (genFuel (checkFromDate r) (startOfDay currentDate)) with
  | none => rw [hG] at hlast; simp at hlast
  | some l =>
    rw [hG] at hlast
    simp only [Option.getD_some] at hlast
    obtain ⟨hvt, hmst, hblocked⟩ :=
      genLoop_getLast_blocked r (startOfDay currentDate) _ _ l t hv.2
        (checkFromDate_ms r) hG hlast
    have hAfter : isAfter (getNextOccurrence r t.date) (startOfDay currentDate) = true := by
      rcases hblocked with hb | hb
      · exact hb
      · cases he : r.endDate with
        | none => rw [endStop_none r he] at hb; simp at hb
        | some e =>
          rw [endStop_some r e he] at hb
          have hEtop' : endStop r (startOfDay currentDate) = isAfter
              (startOfDay currentDate) (startOfDay e) := endStop_some r e he _
          rw [hEtop'] at hEtop
          rw [isAfter_iff] at hb ⊢
          have h1 : ¬ (startOfDay e).key < (startOfDay currentDate).key := by
            rw [← isAfter_iff]
            simp [hEtop]
          omega
    have hcf : checkFromDate { r with lastGenerated := some t.date } = t.date := by
      show startOfDay t.date = t.date
      exact startOfDay_eq_self hmst
    have hE' : endStop { r with lastGenerated := some t.date }
        (startOfDay currentDate) = false := hEtop
    rw [generateDueTransactions, if_neg (by simp [hA]), if_neg (by rw [hE']; simp), hcf]
    have h1 : isAfter (getNextOccurrence { r with lastGenerated := some t.date } t.date)
        (startOfDay currentDate) = true := hAfter
    have hsome : genLoop { r with lastGenerated := some t.date }
        (startOfDay currentDate) t.date (genFuel t.date (startOfDay currentDate))
        = some [] := by
      rw [show genFuel t.date (startOfDay currentDate)
          = ((startOfDay currentDate).rank - t.date.rank) + 1 from rfl]
      rw [genLoop, if_pos h1]
    rw [hsome]
    rfl

theorem checkpoint_advance_no_reemission_witness :
    generateDueTransactions { scheduleA with lastGenerated := some mar15 } apr10 = [] :=
  checkpoint_advance_no_reemission scheduleA apr10 tA (by decide) (by decide)

/-- C3: the code of `processRecurringTransactions` does not implement
this claim: after a pass in which the generator emitted a non-empty list
for scenario A's schedule (last emitted occurrence 2024-03-15), the
caller PATCHes `lastGenerated` to the processing time `now = 2024-04-10`
rather than to 2024-03-15, so the recurrence anchor drifts (the
2024-04-15 occurrence is never generated; the next candidate becomes
2024-05-10). -/
theorem caller_sets_checkpoint_to_now :
    processRecurringPass [scheduleA] apr10
        = [{ scheduleA with lastGenerated := some apr10 }] ∧
      (generateDueTransactions scheduleA apr10).getLast?.map (fun t => t.date)
        = some mar15 ∧
      apr10 ≠ mar15 ∧
      generateDueTransactions { scheduleA with lastGenerated := some apr10 }
          ⟨2024, 4, 20, 0⟩ = [] ∧
      (generateDueTransactions { scheduleA with lastGenerated := some mar15 }
          ⟨2024, 4, 20, 0⟩).map (fun t => t.date) = [⟨2024, 4, 15, 0⟩] := by
  decide

/-- C6: every emitted occurrence is at most the day-truncated `endDate`
when one is set; a loop candidate that has passed the now-check and the
start-date check but is strictly after `endDate` makes the loop stop
with no further emission (FinanceTracker.tsx lines 655-658); and a
candidate landing exactly on `endDate` is emitted (scenario: monthly
from 2024-01-15 with endDate = now = 2024-02-15 emits 2024-02-15). -/
theorem endDate_boundary_policy :
    (∀ (r : RecurringTransaction) (currentDate e : Date) (t : GeneratedTransaction),
        r.endDate = some e → t ∈ generateDueTransactions r currentDate →
        isAfter t.date (startOfDay e) = false) ∧
      (∀ (r : RecurringTransaction) (now anchor : Date) (fuel : Nat) (e : Date),
        r.endDate = some e →
        isAfter (getNextOccurrence r anchor) now = false →
        isBefore (getNextOccurrence r anchor) (startOfDay r.startDate) = false →
        isAfter (getNextOccurrence r anchor) (startOfDay e) = true →
        genLoop r now anchor (fuel + 1) = some []) ∧
      (generateDueTransactions scheduleEndFeb15 feb15).map (fun t => t.date)
        = [feb15] := by
  refine ⟨?_, ?_, by decide⟩
  · intro r currentDate e t he ht
    have hp := mem_generate_props r currentDate t ht
    have hstop := hp.2.2.2.2.2.2.2.1
    rw [endStop_some r e he] at hstop
    exact hstop
  · intro r nowd anchor fuel e he hnow hbefore hafter
    rw [genLoop, if_neg (by simp [hnow]), if_neg (by simp [hbefore]),
      if_pos (by rw [endStop_some r e he]; exact hafter)]

theorem endDate_boundary_policy_witness :
    isAfter tBoundary.date (startOfDay feb15) = false ∧
      genLoop scheduleEndFeb14 apr10 feb15 1 = some [] :=
  ⟨endDate_boundary_policy.1 scheduleEndFeb15 feb15 feb15 tBoundary rfl (by decide),
   endDate_boundary_policy.2.1 scheduleEndFeb14 apr10 feb15 0 feb14 rfl
     (by decide) (by decide) (by decide)⟩

/-- C7: `getNextOccurrence` is a pure total function: for each of the
four frequencies it returns exactly the day-truncated input advanced by
one day, one week, one calendar month, or one calendar year, and on any
valid input the result is a valid date strictly after the truncated
input (so the enum match never falls through to a failure). -/
theorem nextOccurrence_one_unit (r : RecurringTransaction) (d : Date) :
    (r.frequency = RecurrenceFrequency.daily →
        getNextOccurrence r d = addDays (startOfDay d) 1) ∧
      (r.frequency = RecurrenceFrequency.weekly →
        getNextOccurrence r d = addWeeks (startOfDay d) 1) ∧
      (r.frequency = RecurrenceFrequency.monthly →
        getNextOccurrence r d = addMonths (startOfDay d) 1) ∧
      (r.frequency = RecurrenceFrequency.yearly →
        getNextOccurrence r d = addYears (startOfDay d) 1) ∧
      (ValidDate d → ValidDate (getNextOccurrence r d) ∧
        isAfter (getNextOccurrence r d) (startOfDay d) = true) := by
  refine ⟨?_, ?_, ?_, ?_, ?_⟩
  · intro h
    unfold getNextOccurrence
    rw [h]
  · intro h
    unfold getNextOccurrence
    rw [h]
  · intro h
    unfold getNextOccurrence
    rw [h]
  · intro h
    unfold getNextOccurrence
    rw [h]
  · intro hv
    refine ⟨getNextOccurrence_valid r hv, ?_⟩
    rw [isAfter_iff, key_lt_of_ms_zero (ms_startOfDay d) (getNextOccurrence_ms r d),
      rank_startOfDay]
    exact getNextOccurrence_rank r hv

theorem nextOccurrence_one_unit_witness :
    getNextOccurrence scheduleA jan15 = addMonths (startOfDay jan15) 1 ∧
      ValidDate (getNextOccurrence scheduleA jan15) ∧
      isAfter (getNextOccurrence scheduleA jan15) (startOfDay jan15) = true :=
  ⟨(nextOccurrence_one_unit scheduleA jan15).2.2.1 rfl,
   ((nextOccurrence_one_unit scheduleA jan15).2.2.2.2 (by decide)).1,
   ((nextOccurrence_one_unit scheduleA jan15).2.2.2.2 (by decide)).2⟩

/-- C8: on a well-formed schedule the generation loop terminates: every
single step is a strict advance of the day-truncated anchor, and the
loop run by `generateDueTransactions` completes (returns `some` rather
than exhausting its fuel) with the explicit fuel
`genFuel = (rank of now) - (rank of the checkpoint) + 1`, a finite bound
that dominates the number of frequency periods between the checkpoint
and `now` because every period advances the anchor by at least one day
rank. -/
theorem generation_loop_terminates (r : RecurringTransaction)
    (currentDate : Date) (hv : ValidSchedule r) :
    (∀ d, ValidDate d → isAfter (getNextOccurrence r d) (startOfDay d) = true) ∧
      (genLoop r (startOfDay currentDate) (checkFromDate r)
        (genFuel (checkFromDate r) (startOfDay currentDate))).isSome = true := by
  constructor
  · intro d hvd
    rw [isAfter_iff, key_lt_of_ms_zero (ms_startOfDay d) (getNextOccurrence_ms r d),
      rank_startOfDay]
    exact getNextOccurrence_rank r hvd
  · exact genLoop_isSome r (startOfDay currentDate) (ms_startOfDay currentDate)
      ((startOfDay currentDate).rank - (checkFromDate r).rank) (checkFromDate r)
      hv.2 (checkFromDate_ms r) (by omega)

theorem generation_loop_terminates_witness :
    isAfter (getNextOccurrence scheduleA feb15) (startOfDay feb15) = true ∧
      (genLoop scheduleA (startOfDay apr10) (checkFromDate scheduleA)
        (genFuel (checkFromDate scheduleA) (startOfDay apr10))).isSome = true :=
  ⟨(generation_loop_terminates scheduleA apr10 (by decide)).1 feb15 (by decide),
   (generation_loop_terminates scheduleA apr10 (by decide)).2⟩

/-- C9: the generator is deterministic: it is a pure function of its two
arguments, so two invocations on the same schedule and the same current
date are the same list; and that list is chronologically strictly
ascending, so identical runs agree element by element in order. -/
theorem dueOccurrences_deterministic (r : RecurringTransaction)
    (currentDate : Date) (hv : ValidSchedule r) :
    generateDueTransactions r currentDate = generateDueTransactions r currentDate ∧
      List.Pairwise (fun a b => isBefore a.date b.date = true)
        (generateDueTransactions r currentDate) := by
  refine ⟨rfl, ?_⟩
  by_cases hA : r.isActive = true
  · by_cases hE : endStop r (startOfDay currentDate) = true
    · simp [generateDueTransactions, hA, hE]
    · rw [Bool.not_eq_true] at hE
      rw [generateDueTransactions, if_neg (by simp [hA]), if_neg (by simp [hE])]
      cases hG : genLoop r (startOfDay currentDate) (checkFromDate r)
          (genFuel (checkFromDate r) (startOfDay currentDate)) with
      | none => simp
      | some l =>
        simp only [Option.getD_some]
        exact (genLoop_sorted r (startOfDay currentDate) _ _ l hv.2
          (checkFromDate_ms r) hG).2
  · rw [Bool.not_eq_true] at hA
    simp [generateDueTransactions, hA]

theorem dueOccurrences_deterministic_witness :
    List.Pairwise (fun a b => isBefore a.date b.date = true)
      (generateDueTransactions scheduleA apr10) :=
  (dueOccurrences_deterministic scheduleA apr10 (by decide)).2

/-- C10: every emitted instance copies the schedule's type, amount and
category, back-references the schedule through `recurringId = id`,
carries the schedule's description with the exact suffix " (Auto)", and
its date is day-truncated and not after day-truncated `now`. -/
theorem emitted_instance_fields (r : RecurringTransaction) (currentDate : Date)
    (t : GeneratedTransaction) (ht : t ∈ generateDueTransactions r currentDate) :
    t.type = r.type ∧ t.amount = r.amount ∧ t.category = r.category ∧
      t.recurringId = r.id ∧ t.description = r.description ++ " (Auto)" ∧
      t.date.ms = 0 ∧ isAfter t.date (startOfDay currentDate) = false := by
  obtain ⟨h1, h2, h3, h4, h5, h6, h7, _, _⟩ := mem_generate_props r currentDate t ht
  exact ⟨h1, h2, h3, h4, h5, h6, h7⟩

theorem emitted_instance_fields_witness :
    tA.type = scheduleA.type ∧ tA.amount = scheduleA.amount ∧
      tA.category = scheduleA.category ∧ tA.recurringId = scheduleA.id ∧
      tA.description = scheduleA.description ++ " (Auto)" ∧
      tA.date.ms = 0 ∧ isAfter tA.date (startOfDay apr10) = false :=
  emitted_instance_fields scheduleA apr10 tA (by decide)

end FinanceTracker
